import Mathlib

/-!
Shallow embedding of `src/argconstructor.py` (class `ArgConstructor`).

Python values supplied to arguments are modelled by `Value`: either a single
scalar (string, int, bool, or `None`) or a flat list of scalars.  The source
runs under Python 2, where `str` has no `__iter__`, so a lone string counts as
a non-iterable scalar in `_convert_to_iterable`; nested containers are not
modelled because no code path distinguishes them.  `Scalar.null` is the Python
`None` (the "absent" sentinel); `pyNone` is the `Value` holding it.

Errors are modelled by `Err`: `ValueError` and `KeyError` with their message
strings.  Python single quotes inside messages are written with `\x27`.
-/

inductive Scalar where
  | str : String → Scalar
  | int : Int → Scalar
  | bool : Bool → Scalar
  | null : Scalar
deriving Repr, DecidableEq

inductive Value where
  | scalar : Scalar → Value
  | list : List Scalar → Value
deriving Repr, DecidableEq

def pyNone : Value := Value.scalar Scalar.null

/-- Python `str(x)` on a scalar. -/
def pyStr : Scalar → String
  | Scalar.str s => s
  | Scalar.int n => toString n
  | Scalar.bool b => if b then "True" else "False"
  | Scalar.null => "None"

/-- Python `repr(x)` on a scalar (used when a container is `%s`-formatted). -/
def pyRepr : Scalar → String
  | Scalar.str s => "\x27" ++ s ++ "\x27"
  | v => pyStr v

/-- Python `str` of a list of scalars, as in `"%s" % choices`. -/
def scalarListStr (xs : List Scalar) : String :=
  "[" ++ String.intercalate ", " (xs.map pyRepr) ++ "]"

inductive Err where
  | valueError : String → Err
  | keyError : String → Err
deriving Repr, DecidableEq

/-- The per-argument `params` dict built by `add_argument` (same field order). -/
structure Params where
  flag : String
  mandatory : Bool
  default : Value
  min_arguments : Nat
  max_arguments : Option Nat
  flag_separator : String
  choices : Option (List Scalar)
  requires : List String
  required_by : List String
  conflicts_with : List String
  args_separator : String
deriving Repr, DecidableEq

/-- The `ArgConstructor` object: `self._parameters_separator`, `self._strict`,
and `self._arguments_list` (an `OrderedDict`, modelled as an ordered
association list; `add_argument` keeps names unique). -/
structure ArgConstructor where
  parameters_separator : String
  strict : Bool
  arguments_list : List (String × Params)
deriving Repr, DecidableEq

/-- Model of `_convert_to_iterable` (with the identity cast, as called from
`_parse_arg`): `None` gives `[]`, a non-iterable scalar gives a one-item
list (Python 2 strings are not iterable), an iterable gives its items. -/
def convert_to_iterable : Value → List Scalar
  | Value.scalar Scalar.null => []
  | Value.scalar s => [s]
  | Value.list xs => xs

inductive NumArgs where
  | na : NumArgs
  | num : Int → NumArgs
  | iter : List (Option Int) → NumArgs
deriving Repr, DecidableEq

/-- The bounds extraction at the top of `_unpack_num_arguments`: a 2-item
iterable gives its two entries, an int gives (n, n), `None` gives
(None, None), any other iterable raises. -/
def boundsOf : NumArgs → Except Err (Option Int × Option Int)
  | NumArgs.iter xs =>
      if xs.length = 2 then Except.ok (xs.headD Option.none, (xs.drop 1).headD Option.none)
      else Except.error (Err.valueError "\x27arguments\x27 must be int or 2-item iterable")
  | NumArgs.num n => Except.ok (some n, some n)
  | NumArgs.na => Except.ok (Option.none, Option.none)

/-- Model of `_unpack_num_arguments`: a `None` or negative lower bound is replaced by
0, a `None` upper bound by infinity (modelled as `Option.none`), and the
call raises iff the resulting lower bound exceeds the upper bound. -/
def unpack_num_arguments (arguments : NumArgs) : Except Err (Nat × Option Nat) :=
  match boundsOf arguments with
  | Except.error e => Except.error e
  | Except.ok (mn0, mx0) =>
    let mn : Int := match mn0 with
      | Option.none => 0
      | some m => if m < 0 then 0 else m
    match mx0 with
    | Option.none => Except.ok (mn.toNat, Option.none)
    | some mx =>
      if mn > mx then
        Except.error (Err.valueError "Lower value from \x27arguments\x27 must be greater or equal than higher one")
      else Except.ok (mn.toNat, some mx.toNat)

/-- The `choices`-validity test in `add_argument`: `choices` given but empty. -/
def choicesEmpty : Option (List Scalar) → Bool
  | some cs => cs.isEmpty
  | Option.none => false

/-- Model of `add_argument`: duplicate-name check, then `_unpack_num_arguments`, then
the non-empty `choices` check, then append the params dict to the ordered
registry.  `requires`, `required_by` and `conflicts_with` are taken after
their `_convert_to_iterable(•, str)` normalization, i.e. as string lists. -/
def add_argument (c : ArgConstructor) (name : String) (flag : String)
    (mandatory : Bool) (default : Value) (arguments : NumArgs)
    (flag_separator : String) (choices : Option (List Scalar))
    (requires : List String) (required_by : List String)
    (conflicts_with : List String) (args_separator : String) :
    Except Err ArgConstructor :=
  if (c.arguments_list.map Prod.fst).contains name then
    Except.error (Err.valueError ("parameter " ++ name ++ " already exists"))
  else
    match unpack_num_arguments arguments with
    | Except.error e => Except.error e
    | Except.ok (mn, mx) =>
      if choicesEmpty choices then
        Except.error (Err.valueError "choices must be a non-zero long iterable")
      else
        Except.ok { c with arguments_list := c.arguments_list ++
          [(name, Params.mk flag mandatory default mn mx flag_separator choices
              requires required_by conflicts_with args_separator)] }

/-- Model of `_check_against_choices`. -/
def check_against_choices (name : String) (value : Scalar)
    (choices : Option (List Scalar)) : Option Err :=
  match choices with
  | Option.none => Option.none
  | some cs =>
    if cs.contains value then Option.none
    else some (Err.valueError ("Parameter " ++ name ++ " must be one of the "
      ++ scalarListStr cs ++ ", got " ++ pyStr value ++ " instead"))

/-- The `for arg in value` loop of `_parse_arg`: first choices failure. -/
def choicesCheckAll (name : String) (choices : Option (List Scalar)) :
    List Scalar → Option Err
  | [] => Option.none
  | v :: rest =>
    match check_against_choices name v choices with
    | some e => some e
    | Option.none => choicesCheckAll name choices rest

/-- Whether the item count exceeds the upper bound (`inf` is never exceeded). -/
def maxExceeded : Option Nat → Nat → Bool
  | some mx, n => mx < n
  | Option.none, _ => false

/-- The error message of the cardinality branch of `_parse_arg`.  In Python
`min == max` is the chained comparison of the stored min and max fields,
false when the upper bound is infinite. -/
def cardinalityMessage (name : String) (p : Params) (got : Nat) : String :=
  if p.max_arguments = some p.min_arguments then
    "Parameter \x27" ++ name ++ "\x27 takes exactly " ++ toString p.min_arguments
      ++ " argument(s), got " ++ toString got ++ " instead"
  else
    "Parameter \x27" ++ name ++ "\x27 takes from " ++ toString p.min_arguments
      ++ " to "
      ++ (match p.max_arguments with
          | some mx => toString mx
          | Option.none => "infinite number of")
      ++ " arguments, got " ++ toString got ++ " instead"

/-- The final `flag_separator.join((flag, args_separator.join([...])))`,
where a `None` item renders as the empty string. -/
def renderToken (p : Params) (items : List Scalar) : String :=
  String.intercalate p.flag_separator
    [p.flag,
     String.intercalate p.args_separator
       (items.map (fun i => if i = Scalar.null then "" else pyStr i))]

/-- The tail of `_parse_arg` after the value has been resolved and coerced:
flag-only shortcut (`min == max == 0`), cardinality check, choices check,
token rendering. -/
def parseArgItems (name : String) (p : Params) (value : List Scalar) :
    Except Err (Option String) :=
  if p.min_arguments = 0 ∧ p.max_arguments = some 0 then
    Except.ok (some p.flag)
  else if value.length < p.min_arguments ∨ maxExceeded p.max_arguments value.length then
    Except.error (Err.valueError (cardinalityMessage name p value.length))
  else
    match choicesCheckAll name p.choices value with
    | some e => Except.error e
    | Option.none => Except.ok (some (renderToken p value))

/-- Model of `_parse_arg`: resolve a missing value against `mandatory`/`default`
(returning `Option.none` when the argument simply emits nothing), then coerce
with `_convert_to_iterable` and run the checks of `parseArgItems`. -/
def parse_arg (name : String) (p : Params) (value : Value) :
    Except Err (Option String) :=
  if value = pyNone then
    if p.mandatory then
      if p.default ≠ pyNone then
        parseArgItems name p (convert_to_iterable p.default)
      else
        Except.error (Err.valueError ("Parameter \x27" ++ name
          ++ "\x27 is mandatory but not supplied"))
    else Except.ok Option.none
  else parseArgItems name p (convert_to_iterable value)

/-! Registry helpers: association-list lookup and the in-place `mandatory`
elevation performed by `_check_dependencies` (line 207 of the source). -/

/-- The registry access, as an optional lookup returning the first entry
named `k`. -/
def lookupA : List (String × Params) → String → Option Params
  | [], _ => Option.none
  | e :: rest, k => if e.1 = k then some e.2 else lookupA rest k

/-- The in-place mutation that sets the `mandatory` flag of the registry
entry named `x` to `True` (line 207 of the source). -/
def setMandatory : List (String × Params) → String → List (String × Params)
  | [], _ => []
  | e :: rest, x =>
    (if e.1 = x then (e.1, { e.2 with mandatory := true }) else e) :: setMandatory rest x

/-- Python `set.add`: sets are modelled as insertion-ordered duplicate-free
lists, which fixes one deterministic iteration order. -/
def setAdd (s : List String) (x : String) : List String :=
  if s.contains x then s else s ++ [x]

/-- Python `set.update`. -/
def setUpdate (s : List String) (xs : List String) : List String :=
  xs.foldl setAdd s

/-- Model of the step that inserts an empty set under a missing key. -/
def dmEnsure (d : List (String × List String)) (k : String) :
    List (String × List String) :=
  if (d.map Prod.fst).contains k then d else d ++ [(k, [])]

/-- Update the set stored under key `k`. -/
def dmApply (d : List (String × List String)) (k : String)
    (f : List String → List String) : List (String × List String) :=
  d.map (fun e => if e.1 = k then (e.1, f e.2) else e)

/-- Access of the dependants map at `k`.  In `_check_dependencies` this access only happens for
supplied (hence registered) names, and the first loop inserts a key for every
registered name, so the empty-list fallback is unreachable there. -/
def dmGet : List (String × List String) → String → List String
  | [], _ => []
  | e :: rest, k => if e.1 = k then e.2 else dmGet rest k

/-- One iteration of the first loop of `_check_dependencies`: record
the own `requires` of `argument`, then register `argument` as a dependant of each
name in its `required_by`. -/
def buildStep (d : List (String × List String)) (entry : String × Params) :
    List (String × List String) :=
  let d1 := dmEnsure d entry.1
  let d2 := dmApply d1 entry.1 (fun s => setUpdate s entry.2.requires)
  entry.2.required_by.foldl
    (fun acc parameter => dmApply (dmEnsure acc parameter) parameter
      (fun s => setAdd s entry.1)) d2

/-- The `dependants` map of `_check_dependencies`: for every registered `A`,
`dependants[A] = A.requires ∪ \x7bB : A ∈ B.required_by\x7d`. -/
def buildDependants (reg : List (String × Params)) :
    List (String × List String) :=
  reg.foldl buildStep []

def missingDepMsg (argument dep : String) : String :=
  "Parameter \x27" ++ argument ++ "\x27 requires \x27" ++ dep
    ++ "\x27, but it\x27s not supplied"

/-- The inner loop of `_check_dependencies` for one supplied `argument`:
walk its dependants; a dependant that is supplied, or unsupplied with a
default, has its `mandatory` flag set in place; an unsupplied dependant
without a default raises; an unregistered dependant raises `KeyError` from
the `self._arguments_list[dep]` access. -/
def checkDepsList (kwNames : List String) (argument : String) :
    List (String × Params) → List String →
    List (String × Params) × Option Err
  | reg, [] => (reg, Option.none)
  | reg, dep :: rest =>
    if kwNames.contains dep then
      checkDepsList kwNames argument (setMandatory reg dep) rest
    else
      match lookupA reg dep with
      | Option.none => (reg, some (Err.keyError dep))
      | some p =>
        if p.default = pyNone then
          (reg, some (Err.valueError (missingDepMsg argument dep)))
        else checkDepsList kwNames argument (setMandatory reg dep) rest

/-- The outer `for argument in kwargs` loop of `_check_dependencies`. -/
def checkDepsArgs (d : List (String × List String)) (kwNames : List String) :
    List (String × Params) → List String →
    List (String × Params) × Option Err
  | reg, [] => (reg, Option.none)
  | reg, a :: rest =>
    match checkDepsList kwNames a reg (dmGet d a) with
    | (reg1, some e) => (reg1, some e)
    | (reg1, Option.none) => checkDepsArgs d kwNames reg1 rest

/-- Model of `_check_dependencies`: build the dependants map, then process every
supplied argument, mutating the registry `mandatory` flags in place. -/
def check_dependencies (c : ArgConstructor) (kwNames : List String) :
    ArgConstructor × Option Err :=
  let d := buildDependants c.arguments_list
  match checkDepsArgs d kwNames c.arguments_list kwNames with
  | (reg1, e) => ({ c with arguments_list := reg1 }, e)

/-- The inner loop of `_check_for_conflicts`: Python evaluates
the registry entry of `conflict` before testing `conflict in kwargs`,
so an unregistered conflict name raises `KeyError`. -/
def checkConflictsList (reg : List (String × Params)) (kwNames : List String)
    (argument : String) : List String → Option Err
  | [] => Option.none
  | conflict :: rest =>
    match lookupA reg conflict with
    | Option.none => some (Err.keyError conflict)
    | some p =>
      if p.mandatory || kwNames.contains conflict then
        some (Err.valueError ("Argument " ++ argument ++ " conflicts with " ++ conflict))
      else checkConflictsList reg kwNames argument rest

/-- The outer loop of `_check_for_conflicts` (the `self._arguments_list[argument]`
access cannot fail for supplied names, which are registered by then). -/
def checkConflictsArgs (reg : List (String × Params)) (kwNames : List String) :
    List String → Option Err
  | [] => Option.none
  | a :: rest =>
    match lookupA reg a with
    | Option.none => some (Err.keyError a)
    | some p =>
      match checkConflictsList reg kwNames a p.conflicts_with with
      | some e => some e
      | Option.none => checkConflictsArgs reg kwNames rest

/-- Model of `_check_for_conflicts`. -/
def check_for_conflicts (reg : List (String × Params)) (kwNames : List String) :
    Option Err :=
  checkConflictsArgs reg kwNames kwNames

/-- Model of the `kwargs.get(argument)` lookup over the supplied mapping. -/
def lookupVal : List (String × Value) → String → Option Value
  | [], _ => Option.none
  | e :: rest, k => if e.1 = k then some e.2 else lookupVal rest k

/-- The render loop of `parse_args`: iterate the registry in registration
order, collect non-`None` tokens with `_append_if_not_none`, abort on the
first error. -/
def renderAll (reg : List (String × Params)) (kwargs : List (String × Value)) :
    Except Err (List String) :=
  match reg with
  | [] => Except.ok []
  | (nm, p) :: rest =>
    match parse_arg nm p ((lookupVal kwargs nm).getD pyNone) with
    | Except.error e => Except.error e
    | Except.ok Option.none => renderAll rest kwargs
    | Except.ok (some tok) =>
      match renderAll rest kwargs with
      | Except.error e => Except.error e
      | Except.ok toks => Except.ok (tok :: toks)

/-- The surplus-argument step of `parse_args` (lines 227-231): with `strict`
a `KeyError` is raised at the first name absent from the registry; without
it those entries are deleted. -/
def strictFilter (strict : Bool) (names : List String)
    (kwargs : List (String × Value)) : Except Err (List (String × Value)) :=
  match (kwargs.map Prod.fst).filter (fun x => !(names.contains x)) with
  | [] => Except.ok kwargs
  | arg :: _ =>
    if strict then Except.error (Err.keyError ("Argument " ++ arg ++ " not found"))
    else Except.ok (kwargs.filter (fun kv => names.contains kv.1))

/-- The tail of `parse_args` after the `None`-valued entries have been
dropped. -/
def parseArgsNormalized (c : ArgConstructor) (kwargs : List (String × Value)) :
    ArgConstructor × Except Err String :=
  match strictFilter c.strict (c.arguments_list.map Prod.fst) kwargs with
  | Except.error e => (c, Except.error e)
  | Except.ok kwargs2 =>
    match check_dependencies c (kwargs2.map Prod.fst) with
    | (c2, some e) => (c2, Except.error e)
    | (c2, Option.none) =>
      match check_for_conflicts c2.arguments_list (kwargs2.map Prod.fst) with
      | some e => (c2, Except.error e)
      | Option.none =>
        match renderAll c2.arguments_list kwargs2 with
        | Except.error e => (c2, Except.error e)
        | Except.ok toks =>
          (c2, Except.ok (String.intercalate c2.parameters_separator toks))

/-- Model of `parse_args`: drop `None`-valued entries (line 224), then run the
strict check, the dependency check (which mutates the registry in place),
the conflict check, and the render loop.  The returned `ArgConstructor` is
the object state after the call. -/
def parse_args (c : ArgConstructor) (kwargs0 : List (String × Value)) :
    ArgConstructor × Except Err String :=
  parseArgsNormalized c (kwargs0.filter (fun kv => !(kv.2 == pyNone)))

/-! ### Invariants of the in-place `mandatory` elevation

`_check_dependencies` mutates only the `mandatory` field of registry
entries.  `maskMand` erases that field; two registries with equal
`stripReg` images agree on everything the dependency and conflict
conditions read except `mandatory`. -/

def elevP (p : Params) : Params := { p with mandatory := true }

def maskMand (p : Params) : Params := { p with mandatory := false }

def stripE (e : String × Params) : String × Params := (e.1, maskMand e.2)

def stripReg (reg : List (String × Params)) : List (String × Params) :=
  reg.map stripE

/-- Every registry entry named `x` already has its `mandatory` flag set. -/
def elevated (reg : List (String × Params)) (x : String) : Prop :=
  ∀ e ∈ reg, e.1 = x → e.2.mandatory = true

/-- The registered entry for `d` has no default. -/
def defaultNone (reg : List (String × Params)) (d : String) : Prop :=
  ∃ p, lookupA reg d = some p ∧ p.default = pyNone

def registeredAt (reg : List (String × Params)) (d : String) : Prop :=
  ∃ p, lookupA reg d = some p

/-- The `conflicts_with` list consulted for a supplied argument. -/
def conflictsOf (reg : List (String × Params)) (a : String) : List String :=
  ((lookupA reg a).map Params.conflicts_with).getD []

/-! ### Concrete registries used to settle the claims -/

/-- The object built by the constructor with its default arguments. -/
def emptyAC : ArgConstructor := ArgConstructor.mk " " true []

/-- Extract the constructor from a successful registration chain. -/
def getOr : Except Err ArgConstructor → ArgConstructor
  | Except.ok c => c
  | Except.error _ => emptyAC

/-- Registry from `add_argument("b", "-b", default="x")` and then
`add_argument("a", "-a", requires="b")`. -/
def acDep : Except Err ArgConstructor :=
  (add_argument emptyAC "b" "-b" false (Value.scalar (Scalar.str "x"))
      NumArgs.na " " Option.none [] [] [] " ").bind
    (fun c => add_argument c "a" "-a" false pyNone NumArgs.na " "
      Option.none ["b"] [] [] " ")

def cDep : ArgConstructor := getOr acDep

/-- The registered params of `"b"` in `cDep`. -/
def pB : Params :=
  Params.mk "-b" false (Value.scalar (Scalar.str "x")) 0 Option.none " "
    Option.none [] [] [] " "

/-- Registry from `add_argument("b", "-b")` (no default) and then
`add_argument("a", "-a", requires="b")`. -/
def acDepNoDefault : Except Err ArgConstructor :=
  (add_argument emptyAC "b" "-b" false pyNone NumArgs.na " "
      Option.none [] [] [] " ").bind
    (fun c => add_argument c "a" "-a" false pyNone NumArgs.na " "
      Option.none ["b"] [] [] " ")

def cDepNoDefault : ArgConstructor := getOr acDepNoDefault

/-- Registry from `add_argument("c", "-c", mandatory=True, default="x")` and
`add_argument("a", "-a", conflicts_with="c")`. -/
def acConf : Except Err ArgConstructor :=
  (add_argument emptyAC "c" "-c" true (Value.scalar (Scalar.str "x"))
      NumArgs.na " " Option.none [] [] [] " ").bind
    (fun c => add_argument c "a" "-a" false pyNone NumArgs.na " "
      Option.none [] [] ["c"] " ")

def cConf : ArgConstructor := getOr acConf

/-- The spec example: `verbose` with `(0,0)` arguments, then mandatory `out`
with exactly one argument. -/
def acEx : Except Err ArgConstructor :=
  (add_argument emptyAC "verbose" "-v" false pyNone (NumArgs.num 0) " "
      Option.none [] [] [] " ").bind
    (fun c => add_argument c "out" "-o" true pyNone (NumArgs.num 1) " "
      Option.none [] [] [] " ")

/-- Registry from `add_argument("a", "-a", mandatory=True, default="x", arguments=2)`. -/
def acMandDefault2 : Except Err ArgConstructor :=
  add_argument emptyAC "a" "-a" true (Value.scalar (Scalar.str "x"))
    (NumArgs.num 2) " " Option.none [] [] [] " "

def cMandDefault2 : ArgConstructor := getOr acMandDefault2

/-- Registry from `add_argument("a", "-a", requires="ghost")` with `"ghost"`
never registered. -/
def acGhostReq : Except Err ArgConstructor :=
  add_argument emptyAC "a" "-a" false pyNone NumArgs.na " "
    Option.none ["ghost"] [] [] " "

def cGhostReq : ArgConstructor := getOr acGhostReq

/-- Registry from `add_argument("b", "-b", conflicts_with="ghost")` with
`"ghost"` never registered. -/
def acGhostConf : Except Err ArgConstructor :=
  add_argument emptyAC "b" "-b" false pyNone NumArgs.na " "
    Option.none [] [] ["ghost"] " "

def cGhostConf : ArgConstructor := getOr acGhostConf

/-- A plain one-value spec used to instantiate general theorems. -/
def pPlain : Params :=
  Params.mk "-p" false pyNone 0 Option.none " " Option.none [] [] [] " "

theorem elevP_of_mandatory {p : Params} (h : p.mandatory = true) : elevP p = p := by
  cases p
  simp only [elevP]
  simp_all

theorem lookupA_setM (x k : String) : ∀ (reg : List (String × Params)),
    lookupA (setMandatory reg x) k =
      if k = x then Option.map elevP (lookupA reg k) else lookupA reg k := by
  intro reg
  induction reg with
  | nil => simp [setMandatory, lookupA]
  | cons e rest ih =>
    by_cases hex : e.1 = x
    · rw [show setMandatory (e :: rest) x = (e.1, elevP e.2) :: setMandatory rest x from by
        simp [setMandatory, hex, elevP]]
      by_cases hek : e.1 = k
      · have hkx : k = x := by rw [← hek, hex]
        simp [lookupA, hek, hkx, elevP]
      · have hkx : ¬ k = x := fun h => hek (by rw [hex, ← h])
        simp [lookupA, hek, hkx, ih]
    · rw [show setMandatory (e :: rest) x = e :: setMandatory rest x from by
        simp [setMandatory, hex]]
      by_cases hek : e.1 = k
      · have hkx : ¬ k = x := fun h => hex (by rw [hek, h])
        simp [lookupA, hek, hkx]
      · simp [lookupA, hek, ih]

theorem registeredAt_setM (reg : List (String × Params)) (x d : String) :
    registeredAt (setMandatory reg x) d ↔ registeredAt reg d := by
  unfold registeredAt
  rw [lookupA_setM]
  by_cases h : d = x
  · rw [if_pos h]
    cases hq : lookupA reg d <;> simp
  · rw [if_neg h]

theorem defaultNone_setM (reg : List (String × Params)) (x d : String) :
    defaultNone (setMandatory reg x) d ↔ defaultNone reg d := by
  unfold defaultNone
  rw [lookupA_setM]
  by_cases h : d = x
  · rw [if_pos h]
    cases hq : lookupA reg d
    · simp
    · simp [elevP]
  · rw [if_neg h]

theorem stripReg_setM : ∀ (reg : List (String × Params)) (x : String),
    stripReg (setMandatory reg x) = stripReg reg := by
  intro reg x
  induction reg with
  | nil => rfl
  | cons e rest ih =>
    simp only [setMandatory, stripReg, List.map_cons]
    by_cases hex : e.1 = x
    · rw [if_pos hex]
      show stripE (e.1, { e.2 with mandatory := true }) :: stripReg (setMandatory rest x)
        = stripE e :: stripReg rest
      rw [show stripE (e.1, { e.2 with mandatory := true }) = stripE e from rfl, ih]
    · rw [if_neg hex]
      show stripE e :: stripReg (setMandatory rest x) = stripE e :: stripReg rest
      rw [ih]

theorem stripE_inj_fst {e e' : String × Params} (h : stripE e = stripE e') :
    e.1 = e'.1 := by
  have := congrArg Prod.fst h
  simpa [stripE] using this

theorem stripE_inj_snd {e e' : String × Params} (h : stripE e = stripE e') :
    maskMand e.2 = maskMand e'.2 := by
  have := congrArg Prod.snd h
  simpa [stripE] using this

theorem stripReg_names : ∀ (r r' : List (String × Params)),
    stripReg r = stripReg r' → r.map Prod.fst = r'.map Prod.fst := by
  intro r
  induction r with
  | nil =>
    intro r' h
    cases r' with
    | nil => rfl
    | cons e rest => simp [stripReg] at h
  | cons e rest ih =>
    intro r' h
    cases r' with
    | nil => simp [stripReg] at h
    | cons e' rest' =>
      simp only [stripReg, List.map_cons, List.cons.injEq] at h
      obtain ⟨h1, h2⟩ := h
      simp only [List.map_cons, List.cons.injEq]
      exact ⟨stripE_inj_fst h1, ih rest' h2⟩

theorem lookupA_strip : ∀ (r r' : List (String × Params)),
    stripReg r = stripReg r' → ∀ k,
    Option.map maskMand (lookupA r k) = Option.map maskMand (lookupA r' k) := by
  intro r
  induction r with
  | nil =>
    intro r' h k
    cases r' with
    | nil => rfl
    | cons e rest => simp [stripReg] at h
  | cons e rest ih =>
    intro r' h k
    cases r' with
    | nil => simp [stripReg] at h
    | cons e' rest' =>
      simp only [stripReg, List.map_cons, List.cons.injEq] at h
      obtain ⟨h1, h2⟩ := h
      have hn : e.1 = e'.1 := stripE_inj_fst h1
      have hm : maskMand e.2 = maskMand e'.2 := stripE_inj_snd h1
      by_cases hk : e.1 = k
      · have hk' : e'.1 = k := hn ▸ hk
        simp [lookupA, hk, hk', hm]
      · have hk' : ¬ e'.1 = k := hn ▸ hk
        simp only [lookupA, if_neg hk, if_neg hk']
        exact ih rest' h2 k

theorem registeredAt_strip {r r' : List (String × Params)}
    (h : stripReg r = stripReg r') (d : String) :
    registeredAt r d ↔ registeredAt r' d := by
  have hx := lookupA_strip r r' h d
  unfold registeredAt
  cases hp : lookupA r d <;> cases hq : lookupA r' d <;>
    rw [hp, hq] at hx <;> simp_all

theorem maskMand_default (p : Params) : (maskMand p).default = p.default := rfl

theorem defaultNone_strip {r r' : List (String × Params)}
    (h : stripReg r = stripReg r') (d : String) :
    defaultNone r d ↔ defaultNone r' d := by
  have hx := lookupA_strip r r' h d
  unfold defaultNone
  cases hp : lookupA r d with
  | none =>
    cases hq : lookupA r' d with
    | none => simp
    | some q => rw [hp, hq] at hx; simp at hx
  | some p =>
    cases hq : lookupA r' d with
    | none => rw [hp, hq] at hx; simp at hx
    | some q =>
      rw [hp, hq] at hx
      have hx' : maskMand p = maskMand q := by
        have := hx
        simp only [Option.map_some'] at this
        exact Option.some.inj this
      have hd : p.default = q.default := by
        have := congrArg Params.default hx'
        simpa [maskMand] using this
      simp [hd]

theorem elevated_setM_self : ∀ (reg : List (String × Params)) (x : String),
    elevated (setMandatory reg x) x := by
  intro reg x
  induction reg with
  | nil => intro e he hx; simp [setMandatory] at he
  | cons a rest ih =>
    intro e he hx
    simp only [setMandatory] at he
    rcases List.mem_cons.mp he with h1 | h2
    · by_cases hax : a.1 = x
      · rw [if_pos hax] at h1; rw [h1]
      · rw [if_neg hax] at h1; rw [h1] at hx; exact absurd hx hax
    · exact ih e h2 hx

theorem elevated_setM_of : ∀ (reg : List (String × Params)) (x y : String),
    elevated reg y → elevated (setMandatory reg x) y := by
  intro reg x y h
  induction reg with
  | nil => intro e he hy; simp [setMandatory] at he
  | cons a rest ih =>
    intro e he hy
    have hhead : a.1 = y → a.2.mandatory = true := h a (List.mem_cons_self a rest)
    have htail : elevated rest y := fun b hb hby => h b (List.mem_cons_of_mem a hb) hby
    simp only [setMandatory] at he
    rcases List.mem_cons.mp he with h1 | h2
    · by_cases hax : a.1 = x
      · rw [if_pos hax] at h1; rw [h1]
      · rw [if_neg hax] at h1; rw [h1] at hy ⊢; exact hhead hy
    · exact ih htail e h2 hy

theorem setM_eq_of_elevated : ∀ (reg : List (String × Params)) (x : String),
    elevated reg x → setMandatory reg x = reg := by
  intro reg x
  induction reg with
  | nil => intro h; rfl
  | cons e rest ih =>
    intro h
    have hhead : e.1 = x → e.2.mandatory = true := h e (List.mem_cons_self e rest)
    have htail : elevated rest x := fun a ha hax => h a (List.mem_cons_of_mem e ha) hax
    simp only [setMandatory]
    rw [ih htail]
    by_cases hex : e.1 = x
    · rw [if_pos hex]
      have hm := hhead hex
      have heq : ({ e.2 with mandatory := true } : Params) = e.2 := by
        have := elevP_of_mandatory hm
        simpa [elevP] using this
      rw [heq]
    · rw [if_neg hex]

theorem lookupA_mem : ∀ (reg : List (String × Params)) (k : String) (p : Params),
    lookupA reg k = some p → (k, p) ∈ reg := by
  intro reg
  induction reg with
  | nil => intro k p h; simp [lookupA] at h
  | cons e rest ih =>
    intro k p h
    simp only [lookupA] at h
    by_cases hk : e.1 = k
    · rw [if_pos hk] at h
      cases h
      subst hk
      exact List.mem_cons_self e rest
    · rw [if_neg hk] at h
      exact List.mem_cons_of_mem e (ih k p h)

/-! ### Behaviour of the inner loop of `_check_dependencies` -/

theorem cdl_strip (kw : List String) (a : String) :
    ∀ (ds : List String) (reg : List (String × Params)),
    stripReg (checkDepsList kw a reg ds).1 = stripReg reg := by
  intro ds
  induction ds with
  | nil => intro reg; rfl
  | cons dep rest ih =>
    intro reg
    by_cases hc : dep ∈ kw
    · rw [show checkDepsList kw a reg (dep :: rest)
          = checkDepsList kw a (setMandatory reg dep) rest from by
        simp [checkDepsList, hc]]
      rw [ih (setMandatory reg dep), stripReg_setM]
    · cases hl : lookupA reg dep with
      | none => simp [checkDepsList, hc, hl]
      | some p =>
        by_cases hd : p.default = pyNone
        · simp [checkDepsList, hc, hl, hd]
        · rw [show checkDepsList kw a reg (dep :: rest)
              = checkDepsList kw a (setMandatory reg dep) rest from by
            simp [checkDepsList, hc, hl, hd]]
          rw [ih (setMandatory reg dep), stripReg_setM]

theorem cdl_mono (kw : List String) (a : String) :
    ∀ (ds : List String) (reg : List (String × Params)) (x : String),
    elevated reg x → elevated (checkDepsList kw a reg ds).1 x := by
  intro ds
  induction ds with
  | nil => intro reg x h; exact h
  | cons dep rest ih =>
    intro reg x h
    by_cases hc : dep ∈ kw
    · rw [show checkDepsList kw a reg (dep :: rest)
          = checkDepsList kw a (setMandatory reg dep) rest from by
        simp [checkDepsList, hc]]
      exact ih (setMandatory reg dep) x (elevated_setM_of reg dep x h)
    · cases hl : lookupA reg dep with
      | none => simpa [checkDepsList, hc, hl] using h
      | some p =>
        by_cases hd : p.default = pyNone
        · simpa [checkDepsList, hc, hl, hd] using h
        · rw [show checkDepsList kw a reg (dep :: rest)
              = checkDepsList kw a (setMandatory reg dep) rest from by
            simp [checkDepsList, hc, hl, hd]]
          exact ih (setMandatory reg dep) x (elevated_setM_of reg dep x h)

theorem cdl_cover (kw : List String) (a : String) :
    ∀ (ds : List String) (reg : List (String × Params)),
    (checkDepsList kw a reg ds).2 = Option.none →
    ∀ dep ∈ ds, elevated (checkDepsList kw a reg ds).1 dep := by
  intro ds
  induction ds with
  | nil => intro reg _ dep hmem; simp at hmem
  | cons dep0 rest ih =>
    intro reg hok dep hmem
    by_cases hc : dep0 ∈ kw
    · rw [show checkDepsList kw a reg (dep0 :: rest)
          = checkDepsList kw a (setMandatory reg dep0) rest from by
        simp [checkDepsList, hc]] at hok ⊢
      rcases List.mem_cons.mp hmem with h1 | h2
      · subst h1
        exact cdl_mono kw a rest (setMandatory reg dep) dep
          (elevated_setM_self reg dep)
      · exact ih (setMandatory reg dep0) hok dep h2
    · cases hl : lookupA reg dep0 with
      | none => simp [checkDepsList, hc, hl] at hok
      | some p =>
        by_cases hd : p.default = pyNone
        · simp [checkDepsList, hc, hl, hd] at hok
        · rw [show checkDepsList kw a reg (dep0 :: rest)
              = checkDepsList kw a (setMandatory reg dep0) rest from by
            simp [checkDepsList, hc, hl, hd]] at hok ⊢
          rcases List.mem_cons.mp hmem with h1 | h2
          · subst h1
            exact cdl_mono kw a rest (setMandatory reg dep) dep
              (elevated_setM_self reg dep)
          · exact ih (setMandatory reg dep0) hok dep h2

/-- Re-running the inner loop from any registry that agrees with the input
up to `mandatory` flags and already carries the elevations of the first
run leaves that registry unchanged and reproduces the outcome. -/
theorem cdl_stable (kw : List String) (a : String) :
    ∀ (ds : List String) (reg reg1 : List (String × Params)) (e : Option Err)
      (reg2 : List (String × Params)),
    checkDepsList kw a reg ds = (reg1, e) →
    stripReg reg2 = stripReg reg →
    (∀ x, elevated reg1 x → elevated reg2 x) →
    checkDepsList kw a reg2 ds = (reg2, e) := by
  intro ds
  induction ds with
  | nil =>
    intro reg reg1 e reg2 h hs he
    simp only [checkDepsList, Prod.mk.injEq] at h
    simp [checkDepsList, h.2]
  | cons dep rest ih =>
    intro reg reg1 e reg2 h hs he
    by_cases hc : dep ∈ kw
    · rw [show checkDepsList kw a reg (dep :: rest)
          = checkDepsList kw a (setMandatory reg dep) rest from by
        simp [checkDepsList, hc]] at h
      have helev1 : elevated reg1 dep := by
        have := cdl_mono kw a rest (setMandatory reg dep) dep
          (elevated_setM_self reg dep)
        rw [h] at this
        exact this
      have helev2 : elevated reg2 dep := he dep helev1
      rw [show checkDepsList kw a reg2 (dep :: rest)
          = checkDepsList kw a (setMandatory reg2 dep) rest from by
        simp [checkDepsList, hc]]
      rw [setM_eq_of_elevated reg2 dep helev2]
      exact ih (setMandatory reg dep) reg1 e reg2 h
        (by rw [hs, ← stripReg_setM reg dep]) he
    · cases hl : lookupA reg dep with
      | none =>
        have hl2 : lookupA reg2 dep = Option.none := by
          have hmap := lookupA_strip reg2 reg hs dep
          rw [hl] at hmap
          simpa using hmap
        rw [show checkDepsList kw a reg (dep :: rest)
            = (reg, some (Err.keyError dep)) from by
          simp [checkDepsList, hc, hl]] at h
        simp only [Prod.mk.injEq] at h
        simp [checkDepsList, hc, hl2, h.2]
      | some p =>
        have hmap := lookupA_strip reg2 reg hs dep
        rw [hl] at hmap
        have hex : ∃ q, lookupA reg2 dep = some q ∧ maskMand q = maskMand p := by
          cases hq : lookupA reg2 dep with
          | none => rw [hq] at hmap; simp at hmap
          | some q =>
            rw [hq] at hmap
            simp only [Option.map_some'] at hmap
            exact ⟨q, rfl, Option.some.inj hmap⟩
        obtain ⟨q, hq, hmq⟩ := hex
        have hdq : q.default = p.default := by
          have := congrArg Params.default hmq
          simpa [maskMand] using this
        by_cases hd : p.default = pyNone
        · rw [show checkDepsList kw a reg (dep :: rest)
              = (reg, some (Err.valueError (missingDepMsg a dep))) from by
            simp [checkDepsList, hc, hl, hd]] at h
          have hq_def : q.default = pyNone := by rw [hdq, hd]
          simp only [Prod.mk.injEq] at h
          simp [checkDepsList, hc, hq, hq_def, h.2]
        · rw [show checkDepsList kw a reg (dep :: rest)
              = checkDepsList kw a (setMandatory reg dep) rest from by
            simp [checkDepsList, hc, hl, hd]] at h
          have helev1 : elevated reg1 dep := by
            have := cdl_mono kw a rest (setMandatory reg dep) dep
              (elevated_setM_self reg dep)
            rw [h] at this
            exact this
          have helev2 : elevated reg2 dep := he dep helev1
          have hdq' : ¬ q.default = pyNone := by rw [hdq]; exact hd
          rw [show checkDepsList kw a reg2 (dep :: rest)
              = checkDepsList kw a (setMandatory reg2 dep) rest from by
            simp [checkDepsList, hc, hq, hdq']]
          rw [setM_eq_of_elevated reg2 dep helev2]
          exact ih (setMandatory reg dep) reg1 e reg2 h
            (by rw [hs, ← stripReg_setM reg dep]) he

/-- When every walked dependant is registered, an error of the inner loop is
a missing-dependency `ValueError` for some unsupplied dependant in the list
that has no default. -/
theorem cdl_some (kw : List String) (a : String) :
    ∀ (ds : List String) (reg : List (String × Params)),
    (∀ dep ∈ ds, registeredAt reg dep) →
    ∀ (e : Err) (reg1 : List (String × Params)),
    checkDepsList kw a reg ds = (reg1, some e) →
    ∃ dep ∈ ds, dep ∉ kw ∧ defaultNone reg dep
      ∧ e = Err.valueError (missingDepMsg a dep) := by
  intro ds
  induction ds with
  | nil =>
    intro reg _ e reg1 h
    simp only [checkDepsList, Prod.mk.injEq] at h
    exact absurd h.2 (by simp)
  | cons dep rest ih =>
    intro reg hreg e reg1 h
    by_cases hc : dep ∈ kw
    · rw [show checkDepsList kw a reg (dep :: rest)
          = checkDepsList kw a (setMandatory reg dep) rest from by
        simp [checkDepsList, hc]] at h
      have hreg' : ∀ d ∈ rest, registeredAt (setMandatory reg dep) d :=
        fun d hd => (registeredAt_setM reg dep d).mpr
          (hreg d (List.mem_cons_of_mem dep hd))
      obtain ⟨d, hdm, hdk, hdn, hse⟩ := ih (setMandatory reg dep) hreg' e reg1 h
      exact ⟨d, List.mem_cons_of_mem dep hdm, hdk,
        (defaultNone_setM reg dep d).mp hdn, hse⟩
    · cases hl : lookupA reg dep with
      | none =>
        obtain ⟨p, hp⟩ := hreg dep (List.mem_cons_self dep rest)
        rw [hp] at hl
        exact absurd hl (by simp)
      | some p =>
        by_cases hd : p.default = pyNone
        · rw [show checkDepsList kw a reg (dep :: rest)
              = (reg, some (Err.valueError (missingDepMsg a dep))) from by
            simp [checkDepsList, hc, hl, hd]] at h
          simp only [Prod.mk.injEq, Option.some.injEq] at h
          exact ⟨dep, List.mem_cons_self dep rest, hc, ⟨p, hl, hd⟩, h.2.symm⟩
        · rw [show checkDepsList kw a reg (dep :: rest)
              = checkDepsList kw a (setMandatory reg dep) rest from by
            simp [checkDepsList, hc, hl, hd]] at h
          have hreg' : ∀ d ∈ rest, registeredAt (setMandatory reg dep) d :=
            fun d hdm => (registeredAt_setM reg dep d).mpr
              (hreg d (List.mem_cons_of_mem dep hdm))
          obtain ⟨d, hdm, hdk, hdn, hse⟩ := ih (setMandatory reg dep) hreg' e reg1 h
          exact ⟨d, List.mem_cons_of_mem dep hdm, hdk,
            (defaultNone_setM reg dep d).mp hdn, hse⟩

/-- If some dependant in the list is unsupplied and has no default, the
inner loop errors. -/
theorem cdl_complete (kw : List String) (a : String) :
    ∀ (ds : List String) (reg : List (String × Params)) (dep : String),
    dep ∈ ds → dep ∉ kw → defaultNone reg dep →
    ∃ (e : Err) (reg1 : List (String × Params)),
      checkDepsList kw a reg ds = (reg1, some e) := by
  intro ds
  induction ds with
  | nil => intro reg dep hmem; simp at hmem
  | cons d0 rest ih =>
    intro reg dep hmem hdk hdn
    by_cases heq : dep = d0
    · subst heq
      obtain ⟨p, hl, hd⟩ := hdn
      exact ⟨Err.valueError (missingDepMsg a dep), reg, by
        simp [checkDepsList, hdk, hl, hd]⟩
    · have hmem' : dep ∈ rest := by
        rcases List.mem_cons.mp hmem with h1 | h2
        · exact absurd h1 heq
        · exact h2
      by_cases hc0 : d0 ∈ kw
      · obtain ⟨e, reg1, hrec⟩ := ih (setMandatory reg d0) dep hmem' hdk
          ((defaultNone_setM reg d0 dep).mpr hdn)
        exact ⟨e, reg1, by
          rw [show checkDepsList kw a reg (d0 :: rest)
              = checkDepsList kw a (setMandatory reg d0) rest from by
            simp [checkDepsList, hc0]]
          exact hrec⟩
      · cases hl0 : lookupA reg d0 with
        | none =>
          exact ⟨Err.keyError d0, reg, by simp [checkDepsList, hc0, hl0]⟩
        | some p0 =>
          by_cases hd0 : p0.default = pyNone
          · exact ⟨Err.valueError (missingDepMsg a d0), reg, by
              simp [checkDepsList, hc0, hl0, hd0]⟩
          · obtain ⟨e, reg1, hrec⟩ := ih (setMandatory reg d0) dep hmem' hdk
              ((defaultNone_setM reg d0 dep).mpr hdn)
            exact ⟨e, reg1, by
              rw [show checkDepsList kw a reg (d0 :: rest)
                  = checkDepsList kw a (setMandatory reg d0) rest from by
                simp [checkDepsList, hc0, hl0, hd0]]
              exact hrec⟩

/-! ### Behaviour of the outer loop of `_check_dependencies` -/

theorem cda_strip (d : List (String × List String)) (kw : List String) :
    ∀ (args : List String) (reg : List (String × Params)),
    stripReg (checkDepsArgs d kw reg args).1 = stripReg reg := by
  intro args
  induction args with
  | nil => intro reg; rfl
  | cons a rest ih =>
    intro reg
    rcases hcl : checkDepsList kw a reg (dmGet d a) with ⟨reg1, e1⟩
    have hs1 : stripReg reg1 = stripReg reg := by
      have := cdl_strip kw a (dmGet d a) reg
      rw [hcl] at this
      exact this
    cases e1 with
    | some e => simp [checkDepsArgs, hcl, hs1]
    | none =>
      simp only [checkDepsArgs, hcl]
      rw [ih reg1, hs1]

theorem cda_mono (d : List (String × List String)) (kw : List String) :
    ∀ (args : List String) (reg : List (String × Params)) (x : String),
    elevated reg x → elevated (checkDepsArgs d kw reg args).1 x := by
  intro args
  induction args with
  | nil => intro reg x h; exact h
  | cons a rest ih =>
    intro reg x h
    rcases hcl : checkDepsList kw a reg (dmGet d a) with ⟨reg1, e1⟩
    have h1 : elevated reg1 x := by
      have := cdl_mono kw a (dmGet d a) reg x h
      rw [hcl] at this
      exact this
    cases e1 with
    | some e => simpa [checkDepsArgs, hcl] using h1
    | none =>
      simp only [checkDepsArgs, hcl]
      exact ih reg1 x h1

theorem cda_cover (d : List (String × List String)) (kw : List String) :
    ∀ (args : List String) (reg : List (String × Params)),
    (checkDepsArgs d kw reg args).2 = Option.none →
    ∀ a ∈ args, ∀ dep ∈ dmGet d a,
      elevated (checkDepsArgs d kw reg args).1 dep := by
  intro args
  induction args with
  | nil => intro reg _ a hmem; simp at hmem
  | cons a0 rest ih =>
    intro reg hok a hmem dep hdep
    rcases hcl : checkDepsList kw a0 reg (dmGet d a0) with ⟨reg1, e1⟩
    cases e1 with
    | some e => simp [checkDepsArgs, hcl] at hok
    | none =>
      simp only [checkDepsArgs, hcl] at hok ⊢
      rcases List.mem_cons.mp hmem with h1 | h2
      · subst h1
        have h1 : elevated reg1 dep := by
          have := cdl_cover kw a (dmGet d a) reg (by rw [hcl]) dep hdep
          rw [hcl] at this
          exact this
        exact cda_mono d kw rest reg1 dep h1
      · exact ih reg1 hok a h2 dep hdep

theorem cda_stable (d : List (String × List String)) (kw : List String) :
    ∀ (args : List String) (reg regN : List (String × Params)) (e : Option Err)
      (reg2 : List (String × Params)),
    checkDepsArgs d kw reg args = (regN, e) →
    stripReg reg2 = stripReg reg →
    (∀ x, elevated regN x → elevated reg2 x) →
    checkDepsArgs d kw reg2 args = (reg2, e) := by
  intro args
  induction args with
  | nil =>
    intro reg regN e reg2 h hs he
    simp only [checkDepsArgs, Prod.mk.injEq] at h
    simp [checkDepsArgs, h.2]
  | cons a rest ih =>
    intro reg regN e reg2 h hs he
    rcases hcl : checkDepsList kw a reg (dmGet d a) with ⟨reg1, e1⟩
    have hs1 : stripReg reg1 = stripReg reg := by
      have := cdl_strip kw a (dmGet d a) reg
      rw [hcl] at this
      exact this
    cases e1 with
    | some e1' =>
      rw [show checkDepsArgs d kw reg (a :: rest) = (reg1, some e1') from by
        simp [checkDepsArgs, hcl]] at h
      simp only [Prod.mk.injEq] at h
      have hstab := cdl_stable kw a (dmGet d a) reg reg1 (some e1') reg2 hcl
        (by rw [hs]) (by rw [← h.1] at he; exact he)
      rw [← h.2]
      simp [checkDepsArgs, hstab]
    | none =>
      rw [show checkDepsArgs d kw reg (a :: rest)
          = checkDepsArgs d kw reg1 rest from by
        simp [checkDepsArgs, hcl]] at h
      have hmono : ∀ x, elevated reg1 x → elevated regN x := by
        intro x hx
        have := cda_mono d kw rest reg1 x hx
        rw [h] at this
        exact this
      have hstab := cdl_stable kw a (dmGet d a) reg reg1 Option.none reg2 hcl
        (by rw [hs]) (fun x hx => he x (hmono x hx))
      simp only [checkDepsArgs, hstab]
      exact ih reg1 regN e reg2 h (by rw [hs, ← hs1]) he

theorem cda_some (d : List (String × List String)) (kw : List String) :
    ∀ (args : List String) (reg : List (String × Params)),
    (∀ a ∈ args, ∀ dep ∈ dmGet d a, registeredAt reg dep) →
    ∀ (e : Err) (regN : List (String × Params)),
    checkDepsArgs d kw reg args = (regN, some e) →
    ∃ a ∈ args, ∃ dep ∈ dmGet d a, dep ∉ kw ∧ defaultNone reg dep
      ∧ e = Err.valueError (missingDepMsg a dep) := by
  intro args
  induction args with
  | nil =>
    intro reg _ e regN h
    simp only [checkDepsArgs, Prod.mk.injEq] at h
    exact absurd h.2 (by simp)
  | cons a rest ih =>
    intro reg hreg e regN h
    rcases hcl : checkDepsList kw a reg (dmGet d a) with ⟨reg1, e1⟩
    have hs1 : stripReg reg1 = stripReg reg := by
      have := cdl_strip kw a (dmGet d a) reg
      rw [hcl] at this
      exact this
    cases e1 with
    | some e1' =>
      rw [show checkDepsArgs d kw reg (a :: rest) = (reg1, some e1') from by
        simp [checkDepsArgs, hcl]] at h
      simp only [Prod.mk.injEq, Option.some.injEq] at h
      obtain ⟨dep, hdm, hdk, hdn, hse⟩ := cdl_some kw a (dmGet d a) reg
        (hreg a (List.mem_cons_self a rest)) e1' reg1 hcl
      exact ⟨a, List.mem_cons_self a rest, dep, hdm, hdk, hdn, by rw [← h.2, hse]⟩
    | none =>
      rw [show checkDepsArgs d kw reg (a :: rest)
          = checkDepsArgs d kw reg1 rest from by
        simp [checkDepsArgs, hcl]] at h
      have hreg' : ∀ a' ∈ rest, ∀ dep ∈ dmGet d a', registeredAt reg1 dep :=
        fun a' ha' dep hdep => (registeredAt_strip hs1 dep).mpr
          (hreg a' (List.mem_cons_of_mem a ha') dep hdep)
      obtain ⟨a', ha', dep, hdm, hdk, hdn, hse⟩ := ih reg1 hreg' e regN h
      exact ⟨a', List.mem_cons_of_mem a ha', dep, hdm, hdk,
        (defaultNone_strip hs1 dep).mp hdn, hse⟩

theorem cda_complete (d : List (String × List String)) (kw : List String) :
    ∀ (args : List String) (reg : List (String × Params)) (a dep : String),
    a ∈ args → dep ∈ dmGet d a → dep ∉ kw → defaultNone reg dep →
    ∃ (e : Err) (regN : List (String × Params)),
      checkDepsArgs d kw reg args = (regN, some e) := by
  intro args
  induction args with
  | nil => intro reg a dep hmem; simp at hmem
  | cons a0 rest ih =>
    intro reg a dep hmem hdep hdk hdn
    rcases hcl : checkDepsList kw a0 reg (dmGet d a0) with ⟨reg1, e1⟩
    have hs1 : stripReg reg1 = stripReg reg := by
      have := cdl_strip kw a0 (dmGet d a0) reg
      rw [hcl] at this
      exact this
    cases e1 with
    | some e1' =>
      exact ⟨e1', reg1, by simp [checkDepsArgs, hcl]⟩
    | none =>
      rcases List.mem_cons.mp hmem with h1 | h2
      · subst h1
        obtain ⟨e, reg', herr⟩ := cdl_complete kw a (dmGet d a) reg dep hdep hdk hdn
        rw [hcl] at herr
        simp at herr
      · obtain ⟨e, regN, hrec⟩ := ih reg1 a dep h2 hdep hdk
          ((defaultNone_strip hs1 dep).mpr hdn)
        exact ⟨e, regN, by simp [checkDepsArgs, hcl, hrec]⟩

/-! ### The dependants map ignores `mandatory` flags -/

theorem buildStep_stripE (d : List (String × List String)) (e : String × Params) :
    buildStep d (stripE e) = buildStep d e := rfl

theorem foldl_buildStep_strip : ∀ (reg : List (String × Params))
    (d0 : List (String × List String)),
    (stripReg reg).foldl buildStep d0 = reg.foldl buildStep d0 := by
  intro reg
  induction reg with
  | nil => intro d0; rfl
  | cons e rest ih =>
    intro d0
    show (stripReg rest).foldl buildStep (buildStep d0 (stripE e))
      = rest.foldl buildStep (buildStep d0 e)
    rw [buildStep_stripE]
    exact ih (buildStep d0 e)

theorem buildDependants_strip {r r' : List (String × Params)}
    (h : stripReg r = stripReg r') : buildDependants r = buildDependants r' := by
  unfold buildDependants
  rw [← foldl_buildStep_strip r, ← foldl_buildStep_strip r', h]

/-! ### The render loop -/

theorem renderAll_mem : ∀ (reg : List (String × Params))
    (kwargs : List (String × Value)) (toks : List String),
    renderAll reg kwargs = Except.ok toks →
    ∀ (nm : String) (p : Params) (tok : String), (nm, p) ∈ reg →
    parse_arg nm p ((lookupVal kwargs nm).getD pyNone) = Except.ok (some tok) →
    tok ∈ toks := by
  intro reg
  induction reg with
  | nil => intro kwargs toks _ nm p tok hmem; simp at hmem
  | cons e rest ih =>
    intro kwargs toks h nm p tok hmem hp
    obtain ⟨n0, p0⟩ := e
    rcases List.mem_cons.mp hmem with h1 | h2
    · have hn : nm = n0 := congrArg Prod.fst h1
      have hpp : p = p0 := congrArg Prod.snd h1
      subst hn; subst hpp
      rw [show renderAll ((nm, p) :: rest) kwargs
          = match renderAll rest kwargs with
            | Except.error e => Except.error e
            | Except.ok toks => Except.ok (tok :: toks) from by
        simp [renderAll, hp]] at h
      cases hrest : renderAll rest kwargs with
      | error e => rw [hrest] at h; simp at h
      | ok toks' =>
        rw [hrest] at h
        simp only [Except.ok.injEq] at h
        rw [← h]
        exact List.mem_cons_self tok toks'
    · cases hp0 : parse_arg n0 p0 ((lookupVal kwargs n0).getD pyNone) with
      | error e => simp [renderAll, hp0] at h
      | ok t0 =>
        cases t0 with
        | none =>
          rw [show renderAll ((n0, p0) :: rest) kwargs = renderAll rest kwargs from by
            simp [renderAll, hp0]] at h
          exact ih kwargs toks h nm p tok h2 hp
        | some tok0 =>
          rw [show renderAll ((n0, p0) :: rest) kwargs
              = match renderAll rest kwargs with
                | Except.error e => Except.error e
                | Except.ok toks => Except.ok (tok0 :: toks) from by
            simp [renderAll, hp0]] at h
          cases hrest : renderAll rest kwargs with
          | error e => rw [hrest] at h; simp at h
          | ok toks' =>
            rw [hrest] at h
            simp only [Except.ok.injEq] at h
            rw [← h]
            exact List.mem_cons_of_mem tok0 (ih kwargs toks' hrest nm p tok h2 hp)

/-- With no supplied values the render loop succeeds exactly when every
`mandatory` spec has a default whose rendering passes its checks. -/
theorem renderAll_nil_ok_iff : ∀ (reg : List (String × Params)),
    (∃ toks, renderAll reg [] = Except.ok toks) ↔
    ∀ e ∈ reg, e.2.mandatory = true →
      (e.2.default ≠ pyNone ∧
       ∃ t, parseArgItems e.1 e.2 (convert_to_iterable e.2.default) = Except.ok t) := by
  intro reg
  induction reg with
  | nil => simp [renderAll]
  | cons e rest ih =>
    obtain ⟨nm, p⟩ := e
    rw [List.forall_mem_cons]
    cases hm : p.mandatory with
    | false =>
      rw [show renderAll ((nm, p) :: rest) [] = renderAll rest [] from by
        simp [renderAll, parse_arg, pyNone, lookupVal, hm]]
      rw [ih]
      constructor
      · intro hrest
        refine ⟨?_, hrest⟩
        intro hmand
        exact absurd hmand (by simp [hm])
      · intro hand
        exact hand.2
    | true =>
      by_cases hd : p.default = pyNone
      · rw [show renderAll ((nm, p) :: rest) []
            = Except.error (Err.valueError ("Parameter \x27" ++ nm
                ++ "\x27 is mandatory but not supplied")) from by
          simp [renderAll, parse_arg, lookupVal, hm, hd]]
        constructor
        · rintro ⟨toks, htoks⟩; simp at htoks
        · intro hand
          exact absurd hd (hand.1 (by simp [hm])).1
      · have hpa : parse_arg nm p ((lookupVal [] nm).getD pyNone)
            = parseArgItems nm p (convert_to_iterable p.default) := by
          simp [parse_arg, lookupVal, hm, hd]
        cases hres : parseArgItems nm p (convert_to_iterable p.default) with
        | error err =>
          rw [show renderAll ((nm, p) :: rest) [] = Except.error err from by
            simp [renderAll, hpa, hres]]
          constructor
          · rintro ⟨toks, htoks⟩; simp at htoks
          · intro hand
            obtain ⟨-, t, ht⟩ := hand.1 (by simp [hm])
            simp at ht
        | ok t =>
          cases t with
          | none =>
            rw [show renderAll ((nm, p) :: rest) [] = renderAll rest [] from by
              simp [renderAll, hpa, hres]]
            rw [ih]
            constructor
            · intro hrest
              exact ⟨fun _ => ⟨hd, Option.none, rfl⟩, hrest⟩
            · intro hand
              exact hand.2
          | some tok =>
            rw [show renderAll ((nm, p) :: rest) []
                = match renderAll rest [] with
                  | Except.error e => Except.error e
                  | Except.ok toks => Except.ok (tok :: toks) from by
              simp [renderAll, hpa, hres]]
            cases hrest : renderAll rest [] with
            | error err =>
              constructor
              · rintro ⟨toks, htoks⟩; simp at htoks
              · intro hand
                have hex : ∃ toks, renderAll rest [] = Except.ok toks := ih.mpr hand.2
                rw [hrest] at hex
                obtain ⟨toks, htoks⟩ := hex
                simp at htoks
            | ok toks' =>
              constructor
              · intro _
                refine ⟨fun _ => ⟨hd, some tok, rfl⟩, ?_⟩
                exact ih.mp ⟨_, hrest⟩
              · intro _
                exact ⟨_, rfl⟩

/-- When every supplied name is registered, the surplus-argument step keeps
the supplied mapping unchanged. -/
theorem strictFilter_all_registered (strict : Bool) (names : List String)
    (kwargs : List (String × Value)) (h : ∀ kv ∈ kwargs, kv.1 ∈ names) :
    strictFilter strict names kwargs = Except.ok kwargs := by
  unfold strictFilter
  have hnil : (kwargs.map Prod.fst).filter (fun x => !(names.contains x)) = [] := by
    rw [List.filter_eq_nil_iff]
    intro a ha
    simp only [List.mem_map] at ha
    obtain ⟨kv, hkv, hfst⟩ := ha
    have hin := h kv hkv
    rw [← hfst]
    simp [hin]
  rw [hnil]

/-- Dropping the `None`-valued entries leaves a clean mapping unchanged. -/
theorem filter_not_pyNone_eq (kwargs : List (String × Value))
    (h : ∀ kv ∈ kwargs, kv.2 ≠ pyNone) :
    kwargs.filter (fun kv => !(kv.2 == pyNone)) = kwargs := by
  rw [List.filter_eq_self]
  intro kv hkv
  simpa using h kv hkv

/-! ### Small bridging lemmas -/

theorem lookupA_isSome_mem_names : ∀ (reg : List (String × Params)) (k : String),
    (lookupA reg k).isSome = true → k ∈ reg.map Prod.fst := by
  intro reg
  induction reg with
  | nil => intro k h; simp [lookupA] at h
  | cons e rest ih =>
    intro k h
    simp only [lookupA] at h
    by_cases hk : e.1 = k
    · simp [← hk]
    · rw [if_neg hk] at h
      simp only [List.map_cons, List.mem_cons]
      exact Or.inr (ih k h)

theorem lookupVal_not_mem : ∀ (kwargs : List (String × Value)) (k : String),
    k ∉ kwargs.map Prod.fst → lookupVal kwargs k = Option.none := by
  intro kwargs
  induction kwargs with
  | nil => intro k _; rfl
  | cons e rest ih =>
    intro k h
    simp only [List.map_cons, List.mem_cons] at h
    push_neg at h
    simp only [lookupVal]
    rw [if_neg (fun he => h.1 he.symm)]
    exact ih k h.2

theorem renderAll_ok_entry : ∀ (reg : List (String × Params))
    (kwargs : List (String × Value)) (toks : List String),
    renderAll reg kwargs = Except.ok toks →
    ∀ e ∈ reg, ∃ t, parse_arg e.1 e.2 ((lookupVal kwargs e.1).getD pyNone)
      = Except.ok t := by
  intro reg
  induction reg with
  | nil => intro kwargs toks _ e hmem; simp at hmem
  | cons e0 rest ih =>
    intro kwargs toks h e hmem
    obtain ⟨n0, p0⟩ := e0
    cases hp0 : parse_arg n0 p0 ((lookupVal kwargs n0).getD pyNone) with
    | error err => simp [renderAll, hp0] at h
    | ok t0 =>
      rcases List.mem_cons.mp hmem with h1 | h2
      · subst h1
        exact ⟨t0, hp0⟩
      · cases t0 with
        | none =>
          rw [show renderAll ((n0, p0) :: rest) kwargs = renderAll rest kwargs from by
            simp [renderAll, hp0]] at h
          exact ih kwargs toks h e h2
        | some tok0 =>
          rw [show renderAll ((n0, p0) :: rest) kwargs
              = match renderAll rest kwargs with
                | Except.error er => Except.error er
                | Except.ok toks => Except.ok (tok0 :: toks) from by
            simp [renderAll, hp0]] at h
          cases hrest : renderAll rest kwargs with
          | error er => rw [hrest] at h; simp at h
          | ok toks' => exact ih kwargs toks' hrest e h2

theorem parseArgItems_ok_some (name : String) (p : Params) (items : List Scalar)
    (t : Option String) (h : parseArgItems name p items = Except.ok t) :
    ∃ tok, t = some tok := by
  unfold parseArgItems at h
  by_cases h0 : p.min_arguments = 0 ∧ p.max_arguments = some 0
  · rw [if_pos h0] at h
    exact ⟨p.flag, (Except.ok.inj h).symm⟩
  · rw [if_neg h0] at h
    by_cases hcard : items.length < p.min_arguments ∨ maxExceeded p.max_arguments items.length
    · rw [if_pos hcard] at h
      simp at h
    · rw [if_neg hcard] at h
      cases hch : choicesCheckAll name p.choices items with
      | some e => rw [hch] at h; simp at h
      | none =>
        rw [hch] at h
        exact ⟨renderToken p items, (Except.ok.inj h).symm⟩

theorem lookupA_strip_some {r r' : List (String × Params)}
    (h : stripReg r = stripReg r') {k : String} {p : Params}
    (hp : lookupA r k = some p) :
    ∃ p', lookupA r' k = some p' ∧ maskMand p' = maskMand p := by
  have hx := lookupA_strip r r' h k
  rw [hp] at hx
  cases hq : lookupA r' k with
  | none => rw [hq] at hx; simp at hx
  | some q =>
    rw [hq] at hx
    simp only [Option.map_some'] at hx
    exact ⟨q, rfl, (Option.some.inj hx).symm⟩

theorem maskMand_eq_fields {p q : Params} (h : maskMand p = maskMand q) :
    p.default = q.default := by
  have := congrArg Params.default h
  simpa [maskMand] using this

/-! ### Behaviour of `_check_for_conflicts` -/

theorem ccl_some_iff (reg : List (String × Params)) (kwNames : List String)
    (a : String) : ∀ (cfls : List String),
    (∀ cfl ∈ cfls, (lookupA reg cfl).isSome = true) →
    (checkConflictsList reg kwNames a cfls ≠ Option.none ↔
     ∃ cfl ∈ cfls, ((∃ q, lookupA reg cfl = some q ∧ q.mandatory = true)
       ∨ cfl ∈ kwNames)) := by
  intro cfls
  induction cfls with
  | nil => intro _; simp [checkConflictsList]
  | cons cfl rest ih =>
    intro hreg
    have hhead := hreg cfl (List.mem_cons_self cfl rest)
    cases hq : lookupA reg cfl with
    | none => rw [hq] at hhead; simp at hhead
    | some q =>
      by_cases hcond : q.mandatory = true ∨ cfl ∈ kwNames
      · rw [show checkConflictsList reg kwNames a (cfl :: rest)
            = some (Err.valueError ("Argument " ++ a ++ " conflicts with " ++ cfl))
            from by
          rcases hcond with hm | hk
          · simp [checkConflictsList, hq, hm]
          · simp [checkConflictsList, hq, hk]]
        constructor
        · intro _
          refine ⟨cfl, List.mem_cons_self cfl rest, ?_⟩
          rcases hcond with hm | hk
          · exact Or.inl ⟨q, hq, hm⟩
          · exact Or.inr hk
        · intro _
          simp
      · push_neg at hcond
        rw [show checkConflictsList reg kwNames a (cfl :: rest)
            = checkConflictsList reg kwNames a rest from by
          simp [checkConflictsList, hq, hcond.1, hcond.2]]
        rw [ih (fun d hd => hreg d (List.mem_cons_of_mem cfl hd))]
        constructor
        · rintro ⟨d, hd, hor⟩
          exact ⟨d, List.mem_cons_of_mem cfl hd, hor⟩
        · rintro ⟨d, hd, hor⟩
          rcases List.mem_cons.mp hd with h1 | h2
          · subst h1
            rcases hor with ⟨q', hq', hm'⟩ | hk'
            · rw [hq] at hq'
              cases hq'
              exact absurd hm' (by simp [hcond.1])
            · exact absurd hk' hcond.2
          · exact ⟨d, h2, hor⟩

theorem cca_some_iff (reg : List (String × Params)) (kwNames : List String) :
    ∀ (args : List String),
    (∀ a ∈ args, (lookupA reg a).isSome = true) →
    (∀ a ∈ args, ∀ cfl ∈ conflictsOf reg a, (lookupA reg cfl).isSome = true) →
    (checkConflictsArgs reg kwNames args ≠ Option.none ↔
     ∃ a ∈ args, ∃ cfl ∈ conflictsOf reg a,
       ((∃ q, lookupA reg cfl = some q ∧ q.mandatory = true) ∨ cfl ∈ kwNames)) := by
  intro args
  induction args with
  | nil => intro _ _; simp [checkConflictsArgs]
  | cons a rest ih =>
    intro hreg hcf
    have hhead := hreg a (List.mem_cons_self a rest)
    cases hp : lookupA reg a with
    | none => rw [hp] at hhead; simp at hhead
    | some p =>
      have hconf : conflictsOf reg a = p.conflicts_with := by
        simp [conflictsOf, hp]
      have hcfa : ∀ cfl ∈ p.conflicts_with, (lookupA reg cfl).isSome = true := by
        intro cfl hcfl
        exact hcf a (List.mem_cons_self a rest) cfl (by rw [hconf]; exact hcfl)
      cases hccl : checkConflictsList reg kwNames a p.conflicts_with with
      | some e =>
        rw [show checkConflictsArgs reg kwNames (a :: rest) = some e from by
          simp [checkConflictsArgs, hp, hccl]]
        constructor
        · intro _
          obtain ⟨cfl, hcfl, hor⟩ :=
            (ccl_some_iff reg kwNames a p.conflicts_with hcfa).mp (by simp [hccl])
          exact ⟨a, List.mem_cons_self a rest, cfl, by rw [hconf]; exact hcfl, hor⟩
        · intro _
          simp
      | none =>
        rw [show checkConflictsArgs reg kwNames (a :: rest)
            = checkConflictsArgs reg kwNames rest from by
          simp [checkConflictsArgs, hp, hccl]]
        rw [ih (fun a' ha' => hreg a' (List.mem_cons_of_mem a ha'))
            (fun a' ha' => hcf a' (List.mem_cons_of_mem a ha'))]
        constructor
        · rintro ⟨a', ha', rest'⟩
          exact ⟨a', List.mem_cons_of_mem a ha', rest'⟩
        · rintro ⟨a', ha', cfl, hcfl, hor⟩
          rcases List.mem_cons.mp ha' with h1 | h2
          · subst h1
            have : checkConflictsList reg kwNames a' p.conflicts_with ≠ Option.none :=
              (ccl_some_iff reg kwNames a' p.conflicts_with hcfa).mpr
                ⟨cfl, by rw [← hconf]; exact hcfl, hor⟩
            exact absurd hccl this
          · exact ⟨a', h2, cfl, hcfl, hor⟩

/-! ### Idempotence of a whole `parse_args` call -/

theorem parseArgsNormalized_idem (c : ArgConstructor)
    (kwargs : List (String × Value)) :
    parseArgsNormalized (parseArgsNormalized c kwargs).1 kwargs
      = parseArgsNormalized c kwargs := by
  cases hsf : strictFilter c.strict (c.arguments_list.map Prod.fst) kwargs with
  | error e =>
    have h1 : parseArgsNormalized c kwargs = (c, Except.error e) := by
      simp [parseArgsNormalized, hsf]
    rw [h1]
    exact h1
  | ok kwargs2 =>
    rcases hcd : checkDepsArgs (buildDependants c.arguments_list)
        (kwargs2.map Prod.fst) c.arguments_list (kwargs2.map Prod.fst)
      with ⟨regN, eo⟩
    have hstrip : stripReg regN = stripReg c.arguments_list := by
      have := cda_strip (buildDependants c.arguments_list)
        (kwargs2.map Prod.fst) (kwargs2.map Prod.fst) c.arguments_list
      rw [hcd] at this
      exact this
    have hnames : regN.map Prod.fst = c.arguments_list.map Prod.fst :=
      stripReg_names _ _ hstrip
    have hsf2 : strictFilter c.strict (regN.map Prod.fst) kwargs
        = Except.ok kwargs2 := by
      rw [hnames]
      exact hsf
    have hbd2 : buildDependants regN = buildDependants c.arguments_list :=
      buildDependants_strip hstrip
    have hcd2 : checkDepsArgs (buildDependants regN) (kwargs2.map Prod.fst)
        regN (kwargs2.map Prod.fst) = (regN, eo) := by
      rw [hbd2]
      exact cda_stable _ _ _ c.arguments_list regN eo regN hcd hstrip
        (fun x hx => hx)
    have hchk : check_dependencies c (kwargs2.map Prod.fst)
        = ({ c with arguments_list := regN }, eo) := by
      simp [check_dependencies, hcd]
    have hchk2 : check_dependencies { c with arguments_list := regN }
        (kwargs2.map Prod.fst) = ({ c with arguments_list := regN }, eo) := by
      simp [check_dependencies, hcd2]
    cases eo with
    | some e =>
      have h1 : parseArgsNormalized c kwargs
          = ({ c with arguments_list := regN }, Except.error e) := by
        simp [parseArgsNormalized, hsf, hchk]
      rw [h1]
      show parseArgsNormalized { c with arguments_list := regN } kwargs
        = ({ c with arguments_list := regN }, Except.error e)
      simp [parseArgsNormalized, hsf2, hchk2]
    | none =>
      have h1 : parseArgsNormalized c kwargs
          = (match check_for_conflicts regN (kwargs2.map Prod.fst) with
             | some e => ({ c with arguments_list := regN }, Except.error e)
             | Option.none =>
               match renderAll regN kwargs2 with
               | Except.error e => ({ c with arguments_list := regN }, Except.error e)
               | Except.ok toks =>
                 ({ c with arguments_list := regN },
                  Except.ok (String.intercalate c.parameters_separator toks))) := by
        simp [parseArgsNormalized, hsf, hchk]
      rw [h1]
      cases hcc : check_for_conflicts regN (kwargs2.map Prod.fst) with
      | some e =>
        show parseArgsNormalized { c with arguments_list := regN } kwargs
          = ({ c with arguments_list := regN }, Except.error e)
        simp [parseArgsNormalized, hsf2, hchk2, hcc]
      | none =>
        cases hren : renderAll regN kwargs2 with
        | error e =>
          show parseArgsNormalized { c with arguments_list := regN } kwargs
            = ({ c with arguments_list := regN }, Except.error e)
          simp [parseArgsNormalized, hsf2, hchk2, hcc, hren]
        | ok toks =>
          show parseArgsNormalized { c with arguments_list := regN } kwargs
            = ({ c with arguments_list := regN },
               Except.ok (String.intercalate c.parameters_separator toks))
          simp [parseArgsNormalized, hsf2, hchk2, hcc, hren]

/-! ### The claims -/

/-- C1: the claim says a `parse_args` call leaves every registered spec
unchanged — the `mandatory` elevation must not leak across calls.  The code
violates this: `_check_dependencies` writes `mandatory = True` into the
shared registry entry, so after rendering with `a` supplied (where `a`
requires `b` and `b` has a default), the later `parse_args()` of the empty
value set renders `"-b x"` instead of the `""` a fresh registry produces. -/
theorem claim_C1_mutation_leaks :
    acDep = Except.ok cDep
    ∧ (lookupA cDep.arguments_list "b").map Params.mandatory = some false
    ∧ (parse_args cDep []).2 = Except.ok ""
    ∧ (parse_args cDep [("a", Value.scalar (Scalar.int 1))]).2
        = Except.ok "-b x -a 1"
    ∧ (lookupA (parse_args cDep
        [("a", Value.scalar (Scalar.int 1))]).1.arguments_list "b").map
          Params.mandatory = some true
    ∧ (parse_args (parse_args cDep [("a", Value.scalar (Scalar.int 1))]).1 []).2
        = Except.ok "-b x" :=
  ⟨rfl, rfl, rfl, rfl, rfl, rfl⟩

/-- C3: the example from the spec — `verbose` as a `(0,0)` flag and a mandatory
one-argument `out` render `{verbose: True, out: "file.txt"}` to exactly
`"-v -o file.txt"`. -/
theorem claim_C3_example :
    acEx.map (fun c => (parse_args c
      [("verbose", Value.scalar (Scalar.bool true)),
       ("out", Value.scalar (Scalar.str "file.txt"))]).2)
    = Except.ok (Except.ok "-v -o file.txt") := rfl

/-- C10: `add_argument` accepts `requires`/`conflicts_with` naming the
unregistered `"ghost"`, and rendering with the dependent argument supplied
fails with the raw registry lookup `KeyError("ghost")`, which is neither a
`ValueError` (the documented validation kinds) nor the strict-mode
`KeyError("Argument ... not found")`. -/
theorem claim_C10_unvalidated_names :
    acGhostReq = Except.ok cGhostReq
    ∧ lookupA cGhostReq.arguments_list "ghost" = Option.none
    ∧ (parse_args cGhostReq [("a", Value.scalar (Scalar.int 1))]).2
        = Except.error (Err.keyError "ghost")
    ∧ acGhostConf = Except.ok cGhostConf
    ∧ (parse_args cGhostConf [("b", Value.scalar (Scalar.int 1))]).2
        = Except.error (Err.keyError "ghost")
    ∧ (∀ s, Err.keyError "ghost" ≠ Err.valueError s)
    ∧ Err.keyError "ghost" ≠ Err.keyError "Argument ghost not found" := by
  refine ⟨rfl, rfl, rfl, rfl, rfl, ?_, by decide⟩
  intro s h
  exact Err.noConfusion h

/-- C2 counterexample: with `c` registered `mandatory=True, default="x"` and
`a` conflicting with `c`, supplying only `a` raises the conflict error even
though `c` is neither supplied nor elevated by the dependency step of this
call
(which leaves the registry untouched). -/
theorem claim_C2_counterexample :
    acConf = Except.ok cConf
    ∧ check_dependencies cConf ["a"] = (cConf, Option.none)
    ∧ "c" ∉ ["a"]
    ∧ (parse_args cConf [("a", Value.scalar (Scalar.int 1))]).2
        = Except.error (Err.valueError "Argument a conflicts with c") := by
  refine ⟨rfl, by decide, by decide, rfl⟩

/-- C5 counterexample: the registry holding only
`a: mandatory=True, default="x", arguments=2` has no spec that is mandatory
without a default, yet `parse_args()` of the empty value set fails — the
substituted default `"x"` is a single item and violates the `(2,2)`
cardinality. -/
theorem claim_C5_counterexample :
    acMandDefault2 = Except.ok cMandDefault2
    ∧ (∀ e ∈ cMandDefault2.arguments_list,
        ¬(e.2.mandatory = true ∧ e.2.default = pyNone))
    ∧ (parse_args cMandDefault2 []).2
      = Except.error (Err.valueError
          "Parameter \x27a\x27 takes exactly 2 argument(s), got 1 instead") := by
  refine ⟨rfl, by decide, rfl⟩

/-- C7 counterexample: `_unpack_num_arguments((-1, 5))` silently clamps the
negative lower bound to 0 and succeeds instead of rejecting it. -/
theorem claim_C7_counterexample :
    unpack_num_arguments (NumArgs.iter [some (-1), some 5])
      = Except.ok (0, some 5)
    ∧ ((-1 : Int) < 0) :=
  ⟨rfl, by decide⟩

/-- C9: an entry whose value is `None` is dropped by `parse_args` before the
strict lookup check, wherever it sits in the supplied mapping and whether or
not its name is registered, so the call behaves exactly as if the entry were
never supplied. -/
theorem claim_C9_none_dropped (c : ArgConstructor)
    (pre post : List (String × Value)) (name : String) :
    parse_args c (pre ++ (name, pyNone) :: post) = parse_args c (pre ++ post) := by
  unfold parse_args
  congr 1
  simp [List.filter_append]

/-- Closed form of `_unpack_num_arguments` on a 2-tuple of ints. -/
theorem unpack_pair_eq (mn mx : Int) :
    unpack_num_arguments (NumArgs.iter [some mn, some mx])
      = if max mn 0 > mx then
          Except.error (Err.valueError
            "Lower value from \x27arguments\x27 must be greater or equal than higher one")
        else Except.ok ((max mn 0).toNat, some mx.toNat) := by
  have hb : boundsOf (NumArgs.iter [some mn, some mx])
      = Except.ok (some mn, some mx) := by
    simp [boundsOf]
  unfold unpack_num_arguments
  rw [hb]
  dsimp only
  by_cases h : mn < 0
  · rw [if_pos h, max_eq_right (le_of_lt h)]
  · rw [if_neg h, max_eq_left (not_lt.mp h)]

/-- Closed form of `_unpack_num_arguments` on a plain int. -/
theorem unpack_num_eq (n : Int) :
    unpack_num_arguments (NumArgs.num n)
      = if max n 0 > n then
          Except.error (Err.valueError
            "Lower value from \x27arguments\x27 must be greater or equal than higher one")
        else Except.ok ((max n 0).toNat, some n.toNat) := by
  have hb : boundsOf (NumArgs.num n) = Except.ok (some n, some n) := rfl
  unfold unpack_num_arguments
  rw [hb]
  dsimp only
  by_cases h : n < 0
  · rw [if_pos h, max_eq_right (le_of_lt h)]
  · rw [if_neg h, max_eq_left (not_lt.mp h)]

/-- C7 amended: `_unpack_num_arguments` replaces a negative (or missing)
lower bound by 0 instead of rejecting it; the `InvalidCardinality` error is
raised exactly when the clamped lower bound exceeds the upper bound.  A bare
negative int is therefore still rejected (0 > n), but a 2-tuple with a
negative first component is accepted. -/
theorem claim_C7_amended (mn mx : Int) :
    (unpack_num_arguments (NumArgs.iter [some mn, some mx])
      = unpack_num_arguments (NumArgs.iter [some (max mn 0), some mx]))
    ∧ ((∃ r, unpack_num_arguments (NumArgs.iter [some mn, some mx])
          = Except.ok r) ↔ max mn 0 ≤ mx)
    ∧ (∀ n : Int, n < 0 →
        unpack_num_arguments (NumArgs.num n)
          = Except.error (Err.valueError
              "Lower value from \x27arguments\x27 must be greater or equal than higher one")) := by
  refine ⟨?_, ?_, ?_⟩
  · rw [unpack_pair_eq, unpack_pair_eq,
      max_eq_left (le_max_right mn 0)]
  · rw [unpack_pair_eq]
    by_cases h : max mn 0 > mx
    · rw [if_pos h]
      constructor
      · rintro ⟨r, hr⟩
        exact absurd hr (by simp)
      · intro hle
        exact absurd h (not_lt.mpr hle)
    · rw [if_neg h]
      constructor
      · intro _
        exact not_lt.mp h
      · intro _
        exact ⟨_, rfl⟩
  · intro n hn
    rw [unpack_num_eq, if_pos]
    rw [max_eq_right (le_of_lt hn)]
    exact hn

theorem claim_C7_amended_witness :
    (unpack_num_arguments (NumArgs.iter [some (-1), some 5])
      = unpack_num_arguments (NumArgs.iter [some (max (-1) 0), some 5]))
    ∧ unpack_num_arguments (NumArgs.num (-3))
      = Except.error (Err.valueError
          "Lower value from \x27arguments\x27 must be greater or equal than higher one") :=
  ⟨(claim_C7_amended (-1) 5).1, (claim_C7_amended (-1) 5).2.2 (-3) (by decide)⟩

/-- C2 amended: the conflict stage fails iff some supplied argument `A`
lists a conflict `C` whose registry entry has its `mandatory` flag set at
conflict-check time — whether set at registration or by (this or an
earlier) dependency elevation — or `C` is itself supplied.  (The
original claim restricted the flag to the implicit elevation of this call;
`claim_C2_counterexample` refutes that.) -/
theorem claim_C2_amended (reg : List (String × Params)) (kwNames : List String)
    (hreg : ∀ a ∈ kwNames, (lookupA reg a).isSome = true)
    (hcf : ∀ a ∈ kwNames, ∀ cfl ∈ conflictsOf reg a,
      (lookupA reg cfl).isSome = true) :
    check_for_conflicts reg kwNames ≠ Option.none ↔
    ∃ a ∈ kwNames, ∃ cfl ∈ conflictsOf reg a,
      ((∃ q, lookupA reg cfl = some q ∧ q.mandatory = true) ∨ cfl ∈ kwNames) := by
  unfold check_for_conflicts
  exact cca_some_iff reg kwNames kwNames hreg hcf

theorem claim_C2_amended_witness :
    check_for_conflicts cConf.arguments_list ["a"] ≠ Option.none ↔
    ∃ a ∈ ["a"], ∃ cfl ∈ conflictsOf cConf.arguments_list a,
      ((∃ q, lookupA cConf.arguments_list cfl = some q ∧ q.mandatory = true)
        ∨ cfl ∈ ["a"]) :=
  claim_C2_amended cConf.arguments_list ["a"] (by decide) (by decide)

/-- C8: running `parse_args` twice with the same value set (no registration
in between) returns the same result — output string or error — and the
second call leaves the object in the same state, despite the in-place
`mandatory` elevation: the elevation of the first call is exactly re-derived by
the second. -/
theorem claim_C8_idempotent (c : ArgConstructor)
    (kwargs : List (String × Value)) :
    parse_args (parse_args c kwargs).1 kwargs = parse_args c kwargs := by
  unfold parse_args
  exact parseArgsNormalized_idem c (kwargs.filter (fun kv => !(kv.2 == pyNone)))

/-- C4: the resolved value of every rendered argument — the supplied value,
or the default when the value is absent and the spec mandatory — is coerced
by `_convert_to_iterable` into an ordered item sequence, a lone scalar
(including a single string, which Python 2 does not treat as iterable)
becoming a one-item sequence; the flag-only shortcut, the cardinality check
and the choices check of `parseArgItems` are then applied to that sequence. -/
theorem claim_C4_coercion :
    (∀ s : Scalar, s ≠ Scalar.null → convert_to_iterable (Value.scalar s) = [s])
    ∧ (∀ st : String,
        convert_to_iterable (Value.scalar (Scalar.str st)) = [Scalar.str st])
    ∧ (∀ (name : String) (p : Params) (v : Value), v ≠ pyNone →
        parse_arg name p v = parseArgItems name p (convert_to_iterable v))
    ∧ (∀ (name : String) (p : Params), p.mandatory = true → p.default ≠ pyNone →
        parse_arg name p pyNone
          = parseArgItems name p (convert_to_iterable p.default)) := by
  refine ⟨?_, ?_, ?_, ?_⟩
  · intro s hs
    cases s with
    | str st => rfl
    | int n => rfl
    | bool b => rfl
    | null => exact absurd rfl hs
  · intro st
    rfl
  · intro name p v hv
    unfold parse_arg
    rw [if_neg hv]
  · intro name p hm hd
    simp [parse_arg, hm, hd]

theorem claim_C4_coercion_witness :
    parse_arg "p" pPlain (Value.scalar (Scalar.str "v"))
      = parseArgItems "p" pPlain
          (convert_to_iterable (Value.scalar (Scalar.str "v")))
    ∧ convert_to_iterable (Value.scalar (Scalar.str "v")) = [Scalar.str "v"]
    ∧ parse_arg "m"
        (Params.mk "-m" true (Value.scalar (Scalar.str "x")) 0 Option.none " "
          Option.none [] [] [] " ") pyNone
      = parseArgItems "m"
          (Params.mk "-m" true (Value.scalar (Scalar.str "x")) 0 Option.none " "
            Option.none [] [] [] " ")
          (convert_to_iterable (Params.mk "-m" true (Value.scalar (Scalar.str "x"))
            0 Option.none " " Option.none [] [] [] " ").default) :=
  ⟨claim_C4_coercion.2.2.1 "p" pPlain (Value.scalar (Scalar.str "v")) (by decide),
   claim_C4_coercion.2.1 "v",
   claim_C4_coercion.2.2.2 "m" (Params.mk "-m" true (Value.scalar (Scalar.str "x"))
     0 Option.none " " Option.none [] [] [] " ") rfl (by decide)⟩

/-- C5 amended: `parse_args()` of the empty value set succeeds iff every
mandatory spec has a default AND that default passes the own
cardinality/choices checks of the spec.  (The original "iff no spec is
mandatory without a default" fails in the right-to-left direction —
`claim_C5_counterexample` — because a present default can still violate
cardinality or choices.) -/
theorem claim_C5_amended (c : ArgConstructor) :
    (∃ s, (parse_args c []).2 = Except.ok s) ↔
    ∀ e ∈ c.arguments_list, e.2.mandatory = true →
      (e.2.default ≠ pyNone ∧
       ∃ t, parseArgItems e.1 e.2 (convert_to_iterable e.2.default)
         = Except.ok t) := by
  rw [← renderAll_nil_ok_iff]
  cases hren : renderAll c.arguments_list [] with
  | error e =>
    simp [parse_args, parseArgsNormalized, strictFilter, check_dependencies,
      checkDepsArgs, check_for_conflicts, checkConflictsArgs, hren]
  | ok toks =>
    simp [parse_args, parseArgsNormalized, strictFilter, check_dependencies,
      checkDepsArgs, check_for_conflicts, checkConflictsArgs, hren]

theorem claim_C5_amended_witness :
    (∃ s, (parse_args cDep []).2 = Except.ok s) ↔
    ∀ e ∈ cDep.arguments_list, e.2.mandatory = true →
      (e.2.default ≠ pyNone ∧
       ∃ t, parseArgItems e.1 e.2 (convert_to_iterable e.2.default)
         = Except.ok t) :=
  claim_C5_amended cDep

/-- The pipeline of `parse_args` when the supplied mapping is clean, every
supplied name is registered, and the dependency stage succeeds. -/
theorem parseArgs_dep_none (c : ArgConstructor) (kwargs : List (String × Value))
    (regN : List (String × Params))
    (hfeq : kwargs.filter (fun kv => !(kv.2 == pyNone)) = kwargs)
    (hsf : strictFilter c.strict (c.arguments_list.map Prod.fst) kwargs
      = Except.ok kwargs)
    (hcd : checkDepsArgs (buildDependants c.arguments_list)
        (kwargs.map Prod.fst) c.arguments_list (kwargs.map Prod.fst)
      = (regN, Option.none)) :
    (parse_args c kwargs).1 = { c with arguments_list := regN }
    ∧ (parse_args c kwargs).2
      = (match check_for_conflicts regN (kwargs.map Prod.fst) with
         | some e => Except.error e
         | Option.none =>
           match renderAll regN kwargs with
           | Except.error e => Except.error e
           | Except.ok toks =>
               Except.ok (String.intercalate c.parameters_separator toks)) := by
  have hchk : check_dependencies c (kwargs.map Prod.fst)
      = ({ c with arguments_list := regN }, Option.none) := by
    simp [check_dependencies, hcd]
  unfold parse_args
  rw [hfeq]
  constructor
  · simp only [parseArgsNormalized, hsf, hchk]
    cases check_for_conflicts regN (kwargs.map Prod.fst) with
    | some e => rfl
    | none =>
      cases renderAll regN kwargs with
      | error e => rfl
      | ok toks => rfl
  · simp only [parseArgsNormalized, hsf, hchk]
    cases check_for_conflicts regN (kwargs.map Prod.fst) with
    | some e => rfl
    | none =>
      cases renderAll regN kwargs with
      | error e => rfl
      | ok toks => rfl

/-- The pipeline of `parse_args` when the dependency stage errors. -/
theorem parseArgs_dep_some (c : ArgConstructor) (kwargs : List (String × Value))
    (regN : List (String × Params)) (e : Err)
    (hfeq : kwargs.filter (fun kv => !(kv.2 == pyNone)) = kwargs)
    (hsf : strictFilter c.strict (c.arguments_list.map Prod.fst) kwargs
      = Except.ok kwargs)
    (hcd : checkDepsArgs (buildDependants c.arguments_list)
        (kwargs.map Prod.fst) c.arguments_list (kwargs.map Prod.fst)
      = (regN, some e)) :
    (parse_args c kwargs).2 = Except.error e := by
  have hchk : check_dependencies c (kwargs.map Prod.fst)
      = ({ c with arguments_list := regN }, some e) := by
    simp [check_dependencies, hcd]
  unfold parse_args
  rw [hfeq]
  simp [parseArgsNormalized, hsf, hchk]

/-- C6: during a render call whose supplied names (and their dependants) are
all registered, for every supplied `A` and every predecessor `P` in
`A.requires ∪ \x7bB : A ∈ B.required_by\x7d` (the `dependants` closure) with `P`
not supplied: if `P` has no default the call fails with the
missing-dependency `ValueError`; if `P` has a default (and no other
dependant is missing a default) then the registry entry of `P` leaves the
dependency stage with `mandatory = true`, its default intact, so the render
pass treats `P` exactly as a mandatory argument rendered from its default,
and the output of a successful call contains the default token of `P`. -/
theorem claim_C6_dependency (c : ArgConstructor) (kwargs : List (String × Value))
    (hclean : ∀ kv ∈ kwargs, kv.2 ≠ pyNone)
    (hsupp : ∀ kv ∈ kwargs, (lookupA c.arguments_list kv.1).isSome = true)
    (hdeps : ∀ a ∈ kwargs.map Prod.fst,
      ∀ dep ∈ dmGet (buildDependants c.arguments_list) a,
      (lookupA c.arguments_list dep).isSome = true) :
    ∀ a ∈ kwargs.map Prod.fst,
    ∀ dep ∈ dmGet (buildDependants c.arguments_list) a,
    dep ∉ kwargs.map Prod.fst →
    ∀ p, lookupA c.arguments_list dep = some p →
    ((p.default = pyNone →
      ∃ a' dep', (parse_args c kwargs).2
        = Except.error (Err.valueError (missingDepMsg a' dep'))) ∧
     (p.default ≠ pyNone →
      (∀ a' ∈ kwargs.map Prod.fst,
        ∀ dep' ∈ dmGet (buildDependants c.arguments_list) a',
        dep' ∉ kwargs.map Prod.fst → ¬ defaultNone c.arguments_list dep') →
      ∃ p', lookupA (parse_args c kwargs).1.arguments_list dep = some p'
        ∧ p'.mandatory = true ∧ p'.default = p.default
        ∧ parse_arg dep p' pyNone
            = parseArgItems dep p' (convert_to_iterable p'.default)
        ∧ (∀ s, (parse_args c kwargs).2 = Except.ok s →
           ∃ toks tok,
             renderAll (parse_args c kwargs).1.arguments_list kwargs
               = Except.ok toks
             ∧ parseArgItems dep p' (convert_to_iterable p'.default)
                 = Except.ok (some tok)
             ∧ tok ∈ toks
             ∧ s = String.intercalate c.parameters_separator toks))) := by
  intro a ha dep hdep hdk p hp
  have hfeq : kwargs.filter (fun kv => !(kv.2 == pyNone)) = kwargs :=
    filter_not_pyNone_eq kwargs hclean
  have hnames : ∀ kv ∈ kwargs, kv.1 ∈ c.arguments_list.map Prod.fst :=
    fun kv hkv => lookupA_isSome_mem_names _ _ (hsupp kv hkv)
  have hsf : strictFilter c.strict (c.arguments_list.map Prod.fst) kwargs
      = Except.ok kwargs := strictFilter_all_registered _ _ _ hnames
  have hregAll : ∀ a' ∈ kwargs.map Prod.fst,
      ∀ dep' ∈ dmGet (buildDependants c.arguments_list) a',
      registeredAt c.arguments_list dep' := by
    intro a' ha' dep' hdep'
    have hsome := hdeps a' ha' dep' hdep'
    cases hq : lookupA c.arguments_list dep' with
    | none => rw [hq] at hsome; simp at hsome
    | some q => exact ⟨q, hq⟩
  rcases hcd : checkDepsArgs (buildDependants c.arguments_list)
      (kwargs.map Prod.fst) c.arguments_list (kwargs.map Prod.fst)
    with ⟨regN, eo⟩
  cases eo with
  | some e =>
    have hpa2 : (parse_args c kwargs).2 = Except.error e :=
      parseArgs_dep_some c kwargs regN e hfeq hsf hcd
    obtain ⟨a'', ha'', dep'', hdep'', hk'', hdn'', hsh''⟩ :=
      cda_some _ _ (kwargs.map Prod.fst) c.arguments_list hregAll e regN hcd
    constructor
    · intro _
      exact ⟨a'', dep'', by rw [hpa2, hsh'']⟩
    · intro _ hnobad
      exact absurd hdn'' (hnobad a'' ha'' dep'' hdep'' hk'')
  | none =>
    obtain ⟨hpa1, hpa2⟩ := parseArgs_dep_none c kwargs regN hfeq hsf hcd
    constructor
    · intro hdnone
      obtain ⟨e', regN', herr⟩ := cda_complete _ _ (kwargs.map Prod.fst)
        c.arguments_list a dep ha hdep hdk ⟨p, hp, hdnone⟩
      rw [hcd] at herr
      simp at herr
    · intro hdne _
      have hstrip : stripReg regN = stripReg c.arguments_list := by
        have := cda_strip (buildDependants c.arguments_list)
          (kwargs.map Prod.fst) (kwargs.map Prod.fst) c.arguments_list
        rw [hcd] at this
        exact this
      obtain ⟨p', hp', hmask⟩ := lookupA_strip_some hstrip.symm hp
      have hdef' : p'.default = p.default := maskMand_eq_fields hmask
      have helev : elevated regN dep := by
        have := cda_cover (buildDependants c.arguments_list)
          (kwargs.map Prod.fst) (kwargs.map Prod.fst) c.arguments_list
          (by rw [hcd]) a ha dep hdep
        rw [hcd] at this
        exact this
      have hmand : p'.mandatory = true :=
        helev (dep, p') (lookupA_mem regN dep p' hp') rfl
      have hd' : p'.default ≠ pyNone := by
        rw [hdef']
        exact hdne
      have hpargeq : parse_arg dep p' pyNone
          = parseArgItems dep p' (convert_to_iterable p'.default) := by
        simp [parse_arg, hmand, hd']
      refine ⟨p', by rw [hpa1]; exact hp', hmand, hdef', hpargeq, ?_⟩
      intro s hs
      rw [hpa2] at hs
      cases hcc : check_for_conflicts regN (kwargs.map Prod.fst) with
      | some e => rw [hcc] at hs; simp at hs
      | none =>
        rw [hcc] at hs
        cases hren : renderAll regN kwargs with
        | error e => rw [hren] at hs; simp at hs
        | ok toks =>
          rw [hren] at hs
          simp only [Except.ok.injEq] at hs
          have hmem : (dep, p') ∈ regN := lookupA_mem regN dep p' hp'
          have hlv : (lookupVal kwargs dep).getD pyNone = pyNone := by
            rw [lookupVal_not_mem kwargs dep hdk]
            rfl
          obtain ⟨t, ht⟩ := renderAll_ok_entry regN kwargs toks hren (dep, p') hmem
          rw [hlv] at ht
          rw [hpargeq] at ht
          obtain ⟨tok, htok⟩ := parseArgItems_ok_some dep p'
            (convert_to_iterable p'.default) t ht
          subst htok
          refine ⟨toks, tok, by rw [hpa1]; exact hren, ht, ?_, hs.symm⟩
          exact renderAll_mem regN kwargs toks hren dep p' tok hmem
            (by rw [hlv, hpargeq]; exact ht)

theorem claim_C6_dependency_witness :
    ∃ a' dep', (parse_args cDepNoDefault [("a", Value.scalar (Scalar.int 1))]).2
      = Except.error (Err.valueError (missingDepMsg a' dep')) := by
  have h := claim_C6_dependency cDepNoDefault
    [("a", Value.scalar (Scalar.int 1))] (by decide) (by decide) (by decide)
    "a" (by decide) "b" (by decide) (by decide)
    (Params.mk "-b" false pyNone 0 Option.none " " Option.none [] [] [] " ") rfl
  exact h.1 rfl
